import Mathlib

/-!
Verification development for the libpathrs C-API boundary layer
(`src/capi/transmute.rs`) and, modelled from the specification, the
resolver engine (component walker, race verifier, retry dispatcher).

The shallow embedding below models:
  * a small kernel state: a table of open file descriptors mapping to
    inode identities, a fresh-descriptor counter, and an explicit
    schedule of `dup` syscall failures (resource exhaustion);
  * the `CPointer` objects of the C API (an optional inner value plus a
    stored last error, per the boundary error-reporting convention);
  * the three boundary operations `pathrs_duplicate`, `pathrs_into_fd`
    and `pathrs_from_fd`, translated arm-by-arm from transmute.rs;
  * the emulated component walker, proc-readback race verifier and the
    bounded retry dispatcher, modelled from the specification (their
    Rust source is not part of this snapshot).
-/

namespace Pathrs

/-- Errors visible at the boundary layer.  `os n` stands for a raw
operating-system errno (9 = EBADF, 24 = EMFILE). -/
inductive Error where
  | invalidArgument (name description : String)
  | os (errno : Nat)
  deriving DecidableEq, Repr

/-- Kernel-side state: open descriptors (descriptor number ↦ inode
identity), the next fresh descriptor number, and a schedule saying
whether each successive `dup` syscall fails with EMFILE. -/
structure KState where
  table : List (Nat × Nat)
  next : Nat
  dupFailures : List Bool
  deriving DecidableEq, Repr

/-- Well-formedness: every open descriptor number is below `next`, so
freshly allocated descriptors are genuinely fresh. -/
def KState.WF (k : KState) : Prop :=
  ∀ p ∈ k.table, p.1 < k.next

instance (k : KState) : Decidable k.WF := by
  unfold KState.WF; infer_instance

/-- Whether the next `dup` syscall is scheduled to fail. -/
def KState.dupFails (k : KState) : Bool := k.dupFailures.headD false

/-- The `dup`/`fcntl(F_DUPFD_CLOEXEC)` syscall: consumes one entry of
the failure schedule; on success allocates a fresh descriptor referring
to the same inode as `fd`.  Fails with EBADF when `fd` is not open. -/
def KState.dup (k : KState) (fd : Nat) : Except Error Nat × KState :=
  let k₁ : KState := { k with dupFailures := k.dupFailures.tail }
  if k.dupFails then
    (.error (.os 24), k₁)
  else
    match k₁.table.lookup fd with
    | none => (.error (.os 9), k₁)
    | some ino =>
        (.ok k₁.next,
         { k₁ with table := (k₁.next, ino) :: k₁.table, next := k₁.next + 1 })

/-- The `close` syscall: removes a descriptor from the table. -/
def KState.close (k : KState) (fd : Nat) : KState :=
  { k with table := k.table.filter (fun p => p.1 != fd) }

/-- Resolver-backend configuration (spec §3 "Configuration"). -/
inductive Config where
  | kernelNativePreferred
  | emulatedOnly
  deriving DecidableEq, Repr

/-- A Root owns a directory descriptor and carries a configuration. -/
structure Root where
  fd : Nat
  config : Config
  deriving DecidableEq, Repr

/-- A Handle owns a file descriptor. -/
structure Handle where
  fd : Nat
  deriving DecidableEq, Repr

/-- Modelled from the spec: the C-API object wrapper (`CPointer<T>` in
capi/utils.rs, which is outside this snapshot).  It carries the inner
value (taken out when the object is consumed) and the last error, which
failing operations store for later retrieval instead of throwing. -/
structure CPtr (α : Type) where
  inner : Option α
  lastError : Option Error
  deriving DecidableEq

/-- The memory behind a non-null object pointer at the boundary: either
a `pathrs_root_t` or a `pathrs_handle_t`. -/
inductive CObj where
  | croot (p : CPtr Root)
  | chandle (p : CPtr Handle)
  deriving DecidableEq

/-- Result of a C-API call: either a defined return (the C return value
together with the state of the passed-in object after the call and the
kernel state), or a fatal unwind (`panic!`), which terminates rather
than reporting an error. -/
inductive COutcome (α : Type) where
  | ok (ret : α)
  | fatal
  deriving DecidableEq

/-- Modelled from the spec: the error stored by `wrap_err` when the
object's inner value has already been consumed. -/
def consumedErr : Error := .invalidArgument "ptr" "invalid pathrs object"

def PATHRS_NONE : Int := 0
def PATHRS_ERROR : Int := 1
def PATHRS_ROOT : Int := 2
def PATHRS_HANDLE : Int := 3

/-- `pathrs_duplicate(ptr_type, ptr)` from transmute.rs.  Returns the
C return value (`none` = NULL), the object behind `ptr` after the call,
and the kernel state.  A `ptr_type` outside the declared enumeration
hits the `panic!("invalid ptr_type")` arm, modelled as `.fatal`; a call
whose pointer does not actually have the asserted type violates the
caller contract (undefined behaviour), also modelled as `.fatal`. -/
def pathrs_duplicate (k : KState) (ptrType : Int) (ptr : Option CObj) :
    COutcome (Option CObj × Option CObj × KState) :=
  match ptr with
  | none => .ok (none, none, k)
  | some obj =>
    if ptrType = PATHRS_NONE ∨ ptrType = PATHRS_ERROR then
      .ok (none, some obj, k)
    else if ptrType = PATHRS_ROOT then
      match obj with
      | .croot p =>
        match p.inner with
        | none => .ok (none, some (.croot ⟨none, some consumedErr⟩), k)
        | some root =>
          match k.dup root.fd with
          | (.ok newFd, k₁) =>
              .ok (some (.croot ⟨some ⟨newFd, root.config⟩, none⟩),
                   some (.croot ⟨some root, none⟩), k₁)
          | (.error e, k₁) =>
              .ok (none, some (.croot ⟨some root, some e⟩), k₁)
      | .chandle _ => .fatal
    else if ptrType = PATHRS_HANDLE then
      match obj with
      | .chandle p =>
        match p.inner with
        | none => .ok (none, some (.chandle ⟨none, some consumedErr⟩), k)
        | some handle =>
          match k.dup handle.fd with
          | (.ok newFd, k₁) =>
              .ok (some (.chandle ⟨some ⟨newFd⟩, none⟩),
                   some (.chandle ⟨some handle, none⟩), k₁)
          | (.error e, k₁) =>
              .ok (none, some (.chandle ⟨some handle, some e⟩), k₁)
      | .croot _ => .fatal
    else .fatal

/-- `pathrs_into_fd(ptr_type, ptr)` from transmute.rs.  On success the
inner value is taken out of the object (`take_wrap_err`), its raw
descriptor is returned and ownership passes to the caller (the kernel
table is unchanged: the descriptor stays open). -/
def pathrs_into_fd (k : KState) (ptrType : Int) (ptr : Option CObj) :
    COutcome (Int × Option CObj × KState) :=
  match ptr with
  | none => .ok (-1, none, k)
  | some obj =>
    if ptrType = PATHRS_NONE ∨ ptrType = PATHRS_ERROR then
      .ok (-1, some obj, k)
    else if ptrType = PATHRS_ROOT then
      match obj with
      | .croot p =>
        match p.inner with
        | none => .ok (-1, some (.croot ⟨none, some consumedErr⟩), k)
        | some root => .ok ((root.fd : Int), some (.croot ⟨none, none⟩), k)
      | .chandle _ => .fatal
    else if ptrType = PATHRS_HANDLE then
      match obj with
      | .chandle p =>
        match p.inner with
        | none => .ok (-1, some (.chandle ⟨none, some consumedErr⟩), k)
        | some handle => .ok ((handle.fd : Int), some (.chandle ⟨none, none⟩), k)
      | .croot _ => .fatal
    else .fatal

/-- The error-recovery tail of `pathrs_from_fd`: when the inner closure
failed with `e`, construct an object of the requested type carrying the
error so the caller can retrieve it; for `PATHRS_NONE`/`PATHRS_ERROR`
return NULL (the error is lost); any other tag panics. -/
def fromFdMkErr (k : KState) (fdType : Int) (e : Error) :
    COutcome (Option CObj × KState) :=
  if fdType = PATHRS_ROOT then .ok (some (.croot ⟨none, some e⟩), k)
  else if fdType = PATHRS_HANDLE then .ok (some (.chandle ⟨none, some e⟩), k)
  else if fdType = PATHRS_NONE ∨ fdType = PATHRS_ERROR then .ok (none, k)
  else .fatal

/-- `pathrs_from_fd(fd_type, fd)` from transmute.rs: reject negative
descriptors, duplicate the descriptor (never taking ownership of the
caller's), then wrap it as the requested object, with default
configuration for a Root.  When the requested tag is not ROOT/HANDLE the
duplicated descriptor is dropped (closed) and the InvalidArgument error
is handled by `fromFdMkErr`. -/
def pathrs_from_fd (k : KState) (fdType : Int) (fd : Int) :
    COutcome (Option CObj × KState) :=
  if fd < 0 then
    fromFdMkErr k fdType (.invalidArgument "fd" "negative fd value")
  else
    match k.dup fd.toNat with
    | (.error e, k₁) => fromFdMkErr k₁ fdType e
    | (.ok newFd, k₁) =>
      if fdType = PATHRS_ROOT then
        .ok (some (.croot ⟨some ⟨newFd, .kernelNativePreferred⟩, none⟩), k₁)
      else if fdType = PATHRS_HANDLE then
        .ok (some (.chandle ⟨some ⟨newFd⟩, none⟩), k₁)
      else
        fromFdMkErr (k₁.close newFd) fdType
          (.invalidArgument "fd_type" "invalid pathrs type to construct from fd")

/-- The descriptor held inside a boundary object, when it has one. -/
def CObj.innerFd : CObj → Option Nat
  | .croot ⟨some r, _⟩ => some r.fd
  | .chandle ⟨some h, _⟩ => some h.fd
  | .croot ⟨none, _⟩ => none
  | .chandle ⟨none, _⟩ => none

/-! ## Resolver engine, modelled from the spec

The resolver source (Component Walker, Race Verifier, Resolver
Dispatcher) is not part of this snapshot; the definitions below are
modelled from spec §4.2–§4.4 and §7. -/

/-- Classification of a filesystem object during the walk. -/
inductive RKind where
  | file
  | dir
  | symlink
  | other
  deriving DecidableEq, Repr

/-- Modelled from the spec: a snapshot of the filesystem as the walker
observes it.  Objects are identified by inode number; `children`
performs a descriptor-relative lookup of one name under a directory;
`readlink` gives a symlink target as (absolute?, components);
`procPath` is the proc-filesystem readback of an object's current
path (`none` = object deleted), used by the Race Verifier. -/
structure Fs where
  children : Nat → String → Option Nat
  kindOf : Nat → RKind
  readlink : Nat → Bool × List String
  procPath : Nat → Option (List String)

/-- Modelled from the spec: the fixed symlink-expansion bound (a policy
constant; the spec leaves the exact number an implementation choice). -/
def MAX_SYMLINKS : Nat := 128

/-- Modelled from the spec: the fixed race-retry bound ("a small fixed
retry bound (e.g., a handful of attempts)"). -/
def MAX_RETRIES : Nat := 16

/-- Resolution errors (spec §7 taxonomy). -/
inductive ResolveErr where
  | invalidArgument
  | notFound
  | notADirectory
  | tooManyLinks
  | raceDetected
  | persistentRace
  | escapeAttempt
  deriving DecidableEq, Repr

/-- Outcome of walking components up to the next symlink expansion:
either the walk finished (successfully or with a structural error), or
a symlink was encountered, carrying its target (absolute flag and
components), the remaining queue, and the walk position. -/
inductive SegOut where
  | done (res : Except ResolveErr (Nat × List String × Nat))
  | link (isAbs : Bool) (target rest : List String)
      (cur : Nat) (stack : List String) (t : Nat)

/-- Modelled from the spec (§4.2): walk path components one at a time
until the queue is exhausted or a symlink needs expanding.  `fss t` is
the filesystem state observed by the t-th syscall, so concurrent
mutation between steps is represented by a time-varying environment.
Empty components are rejected, `.` is a no-op, `..` pops the logical
path stack and re-resolves against the real current directory
descriptor (clamping to the root when the stack is empty). -/
def walkSeg (fss : Nat → Fs) (root : Nat) :
    List String → Nat → List String → Nat → SegOut
  | [], cur, stack, t => .done (.ok (cur, stack, t))
  | c :: rest, cur, stack, t =>
    if c = "" then .done (.error .invalidArgument)
    else if c = "." then walkSeg fss root rest cur stack t
    else if c = ".." then
      match stack with
      | [] => walkSeg fss root rest root [] t
      | _ :: stackRest =>
        match (fss t).children cur ".." with
        | none => .done (.error .notFound)
        | some p => walkSeg fss root rest p stackRest (t + 1)
    else
      match (fss t).children cur c with
      | none => .done (.error .notFound)
      | some ino =>
        match (fss t).kindOf ino with
        | .symlink =>
          match (fss t).readlink ino with
          | (isAbs, target) => .link isAbs target rest cur stack (t + 1)
        | .dir => walkSeg fss root rest ino (stack ++ [c]) (t + 1)
        | _ =>
          if rest.isEmpty then .done (.ok (ino, stack ++ [c], t + 1))
          else .done (.error .notADirectory)

/-- Modelled from the spec (§4.2): the component walk with the
symlink-expansion counter.  Each symlink expansion splices the target's
components onto the remaining queue and consumes one unit of budget;
exhausting the budget fails with `TooManyLinks`.  Absolute symlink
targets are treated as root-relative (current directory and logical
stack reset to the root).  Returns the final inode, the logical path of
the result, and the final syscall counter. -/
def walkAux (fss : Nat → Fs) (root : Nat) :
    Nat → List String → Nat → List String → Nat →
    Except ResolveErr (Nat × List String × Nat)
  | 0, queue, cur, stack, t =>
    match walkSeg fss root queue cur stack t with
    | .done r => r
    | .link _ _ _ _ _ _ => .error .tooManyLinks
  | b + 1, queue, cur, stack, t =>
    match walkSeg fss root queue cur stack t with
    | .done r => r
    | .link isAbs target rest cur' stack' t' =>
      if isAbs then walkAux fss root b (target ++ rest) root [] t'
      else walkAux fss root b (target ++ rest) cur' stack' t'

/-- Modelled from the spec (§4.2–§4.3): one emulated-walk attempt —
run the Component Walker from the root, then the Race Verifier: read
back the result's proc path and the root's proc path and confirm the
former is the latter extended by the walk's logical path; any mismatch
or a deleted object signals `raceDetected`. -/
def resolveOnce (fss : Nat → Fs) (root : Nat) (comps : List String) :
    Except ResolveErr Nat :=
  match walkAux fss root MAX_SYMLINKS comps root [] 0 with
  | .error e => .error e
  | .ok (ino, stack, t) =>
    match (fss t).procPath root, (fss t).procPath ino with
    | some rp, some hp =>
        if hp = rp ++ stack then .ok ino else .error .raceDetected
    | some _, none => .error .raceDetected
    | none, _ => .error .raceDetected

/-- Modelled from the spec (§4.3 policy, §4.4): the bounded retry loop.
`env a` is the filesystem environment seen by attempt number `a`; on
`raceDetected` all intermediate descriptors are discarded and the walk
restarts from the root; when the bound is exhausted the error becomes
`persistentRace`.  Also returns the number of attempts performed. -/
def resolveRetryAux (env : Nat → Nat → Fs) (root : Nat) (comps : List String) :
    Nat → Nat → Except ResolveErr Nat × Nat
  | 0, used => (.error .persistentRace, used)
  | n + 1, used =>
    match resolveOnce (env used) root comps with
    | .error .raceDetected => resolveRetryAux env root comps n (used + 1)
    | r => (r, used + 1)

/-- The emulated backend: walk + verify with bounded retry. -/
def resolveEmulated (env : Nat → Nat → Fs) (root : Nat) (comps : List String) :
    Except ResolveErr Nat × Nat :=
  resolveRetryAux env root comps MAX_RETRIES 0

/-- Modelled from the spec (§2, §4.4): the kernel-native atomic
resolve-in-root primitive.  Atomicity means the whole lookup observes a
single frozen filesystem state; the kernel's containment guarantee is
modelled by the same anchored-path check the verifier performs,
evaluated on that frozen state, with a detected escape reported as a
terminal `escapeAttempt` error (never as a transient race). -/
def nativeResolve (fs : Fs) (root : Nat) (comps : List String) :
    Except ResolveErr Nat :=
  match resolveOnce (fun _ => fs) root comps with
  | .error .raceDetected => .error .escapeAttempt
  | r => r

/-- Modelled from the spec (§4.4): the Resolver Dispatcher.  If the
configuration forbids native, or the capability probe reported no
support, go straight to the emulated walk; otherwise try native, whose
errors are terminal.  (A runtime "operation unsupported" from the kernel
is folded into the probe flag being false.) -/
def resolve (supportsNative : Bool) (cfg : Config) (env : Nat → Nat → Fs)
    (root : Nat) (comps : List String) : Except ResolveErr Nat :=
  if cfg = Config.emulatedOnly ∨ supportsNative = false then
    (resolveEmulated env root comps).1
  else
    nativeResolve (env 0 0) root comps

/-- Resolution behaviour of a boundary Root object under a stable
filesystem: look up the inode its descriptor refers to and run the
emulated resolution from it on a constant environment. -/
def rootResolveE (k : KState) (r : Root) (fs : Fs) (comps : List String) :
    Option (Except ResolveErr Nat) :=
  (k.table.lookup r.fd).map (fun ino => (resolveEmulated (fun _ _ => fs) ino comps).1)

/-- An ordinary path-component name: not empty and not one of the two
special components the walker normalizes away. -/
def GoodName (c : String) : Prop := c ≠ "" ∧ c ≠ "." ∧ c ≠ ".."

instance (c : String) : Decidable (GoodName c) := by
  unfold GoodName; infer_instance

/-- `SymlinkChain fs root c n`: the name `c` under directory `root`
begins a chain of at least `n` nested symlinks — `c` names a symlink
whose target is a single relative name that in turn names a symlink,
and so on, `n` links deep. -/
def SymlinkChain (fs : Fs) (root : Nat) : String → Nat → Prop
  | _, 0 => True
  | c, 1 => GoodName c ∧ ∃ i, fs.children root c = some i ∧ fs.kindOf i = .symlink
  | c, n + 2 => GoodName c ∧ ∃ i c', fs.children root c = some i ∧
      fs.kindOf i = .symlink ∧ fs.readlink i = (false, [c']) ∧
      SymlinkChain fs root c' (n + 1)

instance decEqExcept (ε α : Type) [DecidableEq ε] [DecidableEq α] :
    DecidableEq (Except ε α) := fun x y =>
  match x, y with
  | .ok a, .ok b =>
      if h : a = b then .isTrue (by rw [h]) else .isFalse (by simp [h])
  | .error a, .error b =>
      if h : a = b then .isTrue (by rw [h]) else .isFalse (by simp [h])
  | .ok _, .error _ => .isFalse (by simp)
  | .error _, .ok _ => .isFalse (by simp)

/-! ## Concrete fixtures used by the witnesses -/

/-- A filesystem consisting of a root directory (inode 0) holding one
symlink `"x"` (inode 1) whose target is the name `"x"` itself: an
unbounded nested-symlink chain. -/
def loopFs : Fs where
  children := fun d n => if d = 0 ∧ n = "x" then some 1 else none
  kindOf := fun i => if i = 1 then .symlink else .dir
  readlink := fun _ => (false, ["x"])
  procPath := fun i => if i = 0 then some ["r"] else none

/-- A stable filesystem: a root directory (inode 0, proc path `r`) with
subdirectory `"etc"` (inode 1, proc path `r/etc`) holding a regular
file `"passwd"` (inode 2, proc path `r/etc/passwd`). -/
def etcFs : Fs where
  children := fun d n =>
    if d = 0 ∧ n = "etc" then some 1
    else if d = 1 ∧ n = "passwd" then some 2
    else none
  kindOf := fun i => if i = 2 then .file else .dir
  readlink := fun _ => (false, [])
  procPath := fun i =>
    if i = 0 then some ["r"]
    else if i = 1 then some ["r", "etc"]
    else if i = 2 then some ["r", "etc", "passwd"]
    else none

/-- An adversary that deletes every object's proc-path readback, so the
Race Verifier reports a race on every attempt. -/
def raceFs : Fs where
  children := fun _ _ => none
  kindOf := fun _ => .dir
  readlink := fun _ => (false, [])
  procPath := fun _ => none

/-- A small well-formed kernel state: descriptor 3 is open onto inode
7, the next fresh descriptor is 4, and no dup failure is scheduled. -/
def kDemo : KState := ⟨[(3, 7)], 4, []⟩

/-- A kernel state whose next dup syscall is scheduled to fail. -/
def kDupFail : KState := ⟨[(3, 7)], 4, [true]⟩

/-- A kernel state where descriptor 3 is open onto the root directory
(inode 0) of `etcFs`. -/
def kEtc : KState := ⟨[(3, 0)], 4, []⟩

/-! ## Helper lemmas -/

theorem lookup_cons_ne (a b v : Nat) (l : List (Nat × Nat)) (h : a ≠ b) :
    List.lookup a ((b, v) :: l) = List.lookup a l := by
  have hb : (a == b) = false := beq_eq_false_iff_ne.mpr h
  simp [List.lookup, hb]

theorem lookup_cons_self (a v : Nat) (l : List (Nat × Nat)) :
    List.lookup a ((a, v) :: l) = some v := by
  simp [List.lookup]

theorem lookup_mem (a v : Nat) :
    ∀ l : List (Nat × Nat), List.lookup a l = some v → (a, v) ∈ l := by
  intro l
  induction l with
  | nil => intro h; cases h
  | cons p l ih =>
    rcases p with ⟨x, w⟩
    intro h
    by_cases hx : a = x
    · subst hx
      rw [lookup_cons_self] at h
      cases h
      exact List.mem_cons_self _ _
    · rw [lookup_cons_ne _ _ _ _ hx] at h
      exact List.mem_cons_of_mem _ (ih h)

theorem lookup_filter_ne (a b : Nat) (l : List (Nat × Nat)) (h : a ≠ b) :
    List.lookup a (l.filter (fun p => p.1 != b)) = List.lookup a l := by
  induction l with
  | nil => rfl
  | cons p l ih =>
    rcases p with ⟨x, v⟩
    by_cases hx : x = b
    · subst hx
      simp only [List.filter_cons, bne_self_eq_false, Bool.false_eq_true, if_false, ih]
      rw [lookup_cons_ne _ _ _ _ h]
    · have hbx : ((x, v).1 != b) = true := by simpa using hx
      simp only [List.filter_cons, hbx, if_true]
      by_cases hax : a = x
      · subst hax
        rw [lookup_cons_self, lookup_cons_self]
      · rw [lookup_cons_ne _ _ _ _ hax, lookup_cons_ne _ _ _ _ hax, ih]

theorem filter_drop_self (x v : Nat) (l : List (Nat × Nat)) :
    ((x, v) :: l).filter (fun p => p.1 != x) = l.filter (fun p => p.1 != x) := by
  simp [List.filter_cons]

/-- Unfolding of a successful `dup`: the new descriptor is the fresh
`next` number, the caller's table gains exactly one entry for it, and
the duplicated descriptor was open. -/
theorem dup_ok_spec (k : KState) (fd f : Nat) (k₁ : KState)
    (hd : k.dup fd = (.ok f, k₁)) :
    f = k.next ∧ ∃ ino, k.table.lookup fd = some ino ∧
      k₁ = ⟨(k.next, ino) :: k.table, k.next + 1, k.dupFailures.tail⟩ := by
  unfold KState.dup at hd
  by_cases hb : k.dupFails
  · simp [hb] at hd
  · rw [if_neg (by simp [hb])] at hd
    rcases hl : k.table.lookup fd with _ | ino <;> simp [hl] at hd
    obtain ⟨hf, hk⟩ := hd
    exact ⟨hf.symm, ino, rfl, hk.symm⟩

/-- Unfolding of a failed `dup`: only the failure schedule advances. -/
theorem dup_err_spec (k : KState) (fd : Nat) (e : Error) (k₁ : KState)
    (hd : k.dup fd = (.error e, k₁)) :
    k₁ = { k with dupFailures := k.dupFailures.tail } := by
  unfold KState.dup at hd
  by_cases hb : k.dupFails
  · simp [hb] at hd
    exact hd.2.symm
  · rw [if_neg (by simp [hb])] at hd
    rcases hl : k.table.lookup fd with _ | ino <;> simp [hl] at hd
    exact hd.2.symm

/-! ## Claim theorems -/

/-- Claim C8: a successful `pathrs_into_fd` on a Root or Handle consumes
the object — the returned raw descriptor is the object's own underlying
descriptor (now owned by the caller; the kernel table is untouched, so
the descriptor stays open), and afterwards the object's inner value is
taken, leaving it unusable as a Root or Handle. -/
theorem claim_C8_into_fd_consumes (k : KState) (le le' : Option Error)
    (r : Root) (hdl : Handle) :
    pathrs_into_fd k PATHRS_ROOT (some (.croot ⟨some r, le⟩))
      = .ok ((r.fd : Int), some (.croot ⟨none, none⟩), k)
    ∧ pathrs_into_fd k PATHRS_HANDLE (some (.chandle ⟨some hdl, le'⟩))
      = .ok ((hdl.fd : Int), some (.chandle ⟨none, none⟩), k) :=
  ⟨rfl, rfl⟩

/-- Witness for C8 at a concrete kernel state, Root and Handle. -/
theorem claim_C8_into_fd_consumes_witness :
    pathrs_into_fd kDemo PATHRS_ROOT
        (some (.croot ⟨some ⟨3, .kernelNativePreferred⟩, none⟩))
      = .ok ((3 : Int), some (.croot ⟨none, none⟩), kDemo)
    ∧ pathrs_into_fd kDemo PATHRS_HANDLE (some (.chandle ⟨some ⟨3⟩, none⟩))
      = .ok ((3 : Int), some (.chandle ⟨none, none⟩), kDemo) :=
  claim_C8_into_fd_consumes kDemo none none ⟨3, .kernelNativePreferred⟩ ⟨3⟩

/-- The InvalidArgument error produced for a negative descriptor. -/
def negFdErr : Error := .invalidArgument "fd" "negative fd value"

/-- Claim C3: `pathrs_from_fd` rejects every negative descriptor with an
InvalidArgument error and constructs no usable object (the returned
object's inner value is absent); for requested kinds Root and Handle the
error is stored on the returned object, retrievable by the caller. -/
theorem claim_C3_negative_fd (k : KState) (fd : Int) (hf : fd < 0) :
    pathrs_from_fd k PATHRS_ROOT fd = .ok (some (.croot ⟨none, some negFdErr⟩), k)
    ∧ pathrs_from_fd k PATHRS_HANDLE fd = .ok (some (.chandle ⟨none, some negFdErr⟩), k)
    ∧ pathrs_from_fd k PATHRS_NONE fd = .ok (none, k)
    ∧ pathrs_from_fd k PATHRS_ERROR fd = .ok (none, k) := by
  refine ⟨?_, ?_, ?_, ?_⟩ <;>
    simp [pathrs_from_fd, fromFdMkErr, hf, negFdErr,
      PATHRS_NONE, PATHRS_ERROR, PATHRS_ROOT, PATHRS_HANDLE]

/-- Witness for C3 at `fd = -1`. -/
theorem claim_C3_negative_fd_witness :
    pathrs_from_fd kDemo PATHRS_ROOT (-1)
      = .ok (some (.croot ⟨none, some negFdErr⟩), kDemo)
    ∧ pathrs_from_fd kDemo PATHRS_HANDLE (-1)
      = .ok (some (.chandle ⟨none, some negFdErr⟩), kDemo)
    ∧ pathrs_from_fd kDemo PATHRS_NONE (-1) = .ok (none, kDemo)
    ∧ pathrs_from_fd kDemo PATHRS_ERROR (-1) = .ok (none, kDemo) :=
  claim_C3_negative_fd kDemo (-1) (by decide)

/-- Claim C10: with a null object pointer (any tag), or with tag
PATHRS_NONE or PATHRS_ERROR, `pathrs_duplicate` and `pathrs_into_fd`
return their sentinel without touching the object (no error is stored);
and `pathrs_from_fd` with tag PATHRS_NONE or PATHRS_ERROR returns NULL,
the error being lost rather than carried by an object. -/
theorem claim_C10_null_and_inert_tags (k : KState) (obj : CObj) (fd t : Int)
    (ht : t = PATHRS_NONE ∨ t = PATHRS_ERROR) :
    (∀ u : Int, pathrs_duplicate k u none = .ok (none, none, k)
      ∧ pathrs_into_fd k u none = .ok (-1, none, k))
    ∧ pathrs_duplicate k t (some obj) = .ok (none, some obj, k)
    ∧ pathrs_into_fd k t (some obj) = .ok (-1, some obj, k)
    ∧ ∃ k', pathrs_from_fd k t fd = .ok (none, k') := by
  refine ⟨fun u => ⟨rfl, rfl⟩, ?_, ?_, ?_⟩
  · rcases ht with h | h <;> subst h <;> simp [pathrs_duplicate, PATHRS_NONE, PATHRS_ERROR]
  · rcases ht with h | h <;> subst h <;> simp [pathrs_into_fd, PATHRS_NONE, PATHRS_ERROR]
  · have h2 : t ≠ PATHRS_ROOT := by
      rcases ht with h | h <;> subst h <;> decide
    have h3 : t ≠ PATHRS_HANDLE := by
      rcases ht with h | h <;> subst h <;> decide
    unfold pathrs_from_fd
    by_cases hf : fd < 0
    · rw [if_pos hf]
      exact ⟨k, by simp [fromFdMkErr, h2, h3, ht]⟩
    · rw [if_neg hf]
      rcases hd : k.dup fd.toNat with ⟨res, k₁⟩
      cases res with
      | error e => exact ⟨k₁, by simp [fromFdMkErr, h2, h3, ht]⟩
      | ok n => exact ⟨k₁.close n, by simp [fromFdMkErr, h2, h3, ht]⟩

/-- Witness for C10 at tag PATHRS_NONE, a concrete object and `fd = 3`. -/
theorem claim_C10_null_and_inert_tags_witness :
    (∀ u : Int, pathrs_duplicate kDemo u none = .ok (none, none, kDemo)
      ∧ pathrs_into_fd kDemo u none = .ok (-1, none, kDemo))
    ∧ pathrs_duplicate kDemo PATHRS_NONE (some (.chandle ⟨some ⟨3⟩, none⟩))
      = .ok (none, some (.chandle ⟨some ⟨3⟩, none⟩), kDemo)
    ∧ pathrs_into_fd kDemo PATHRS_NONE (some (.chandle ⟨some ⟨3⟩, none⟩))
      = .ok (-1, some (.chandle ⟨some ⟨3⟩, none⟩), kDemo)
    ∧ ∃ k', pathrs_from_fd kDemo PATHRS_NONE 3 = .ok (none, k') :=
  claim_C10_null_and_inert_tags kDemo (.chandle ⟨some ⟨3⟩, none⟩) 3 PATHRS_NONE
    (Or.inl rfl)

/-- Counterexample to claim C2 as stated: calling `pathrs_duplicate`
with the out-of-enumeration tag 4 on a valid object does not report an
InvalidArgument error through the sentinel-and-stored-error channel —
it hits the `panic!("invalid ptr_type")` arm, terminating the process. -/
theorem claim_C2_counterexample :
    pathrs_duplicate kDemo 4 (some (.croot ⟨some ⟨3, .kernelNativePreferred⟩, none⟩))
      = .fatal := rfl

/-- Claim C2 (amended): a boundary call whose object-kind tag lies
outside the declared enumeration is a fatal programming-error condition:
`pathrs_duplicate` and `pathrs_into_fd` with a non-null pointer panic,
and so does `pathrs_from_fd` for every descriptor argument, instead of
reporting a typed InvalidArgument result. -/
theorem claim_C2_invalid_tag_fatal (k : KState) (t fd : Int) (obj : CObj)
    (ht : ¬(t = PATHRS_NONE ∨ t = PATHRS_ERROR ∨ t = PATHRS_ROOT ∨ t = PATHRS_HANDLE)) :
    pathrs_duplicate k t (some obj) = .fatal
    ∧ pathrs_into_fd k t (some obj) = .fatal
    ∧ pathrs_from_fd k t fd = .fatal := by
  push_neg at ht
  obtain ⟨h0, h1, h2, h3⟩ := ht
  refine ⟨?_, ?_, ?_⟩
  · simp [pathrs_duplicate, h0, h1, h2, h3]
  · simp [pathrs_into_fd, h0, h1, h2, h3]
  · unfold pathrs_from_fd
    by_cases hf : fd < 0
    · rw [if_pos hf]
      simp [fromFdMkErr, h0, h1, h2, h3]
    · rw [if_neg hf]
      rcases hd : k.dup fd.toNat with ⟨res, k₁⟩
      cases res with
      | error e => simp [fromFdMkErr, h0, h1, h2, h3]
      | ok n => simp [fromFdMkErr, h0, h1, h2, h3]

/-- Witness for the amended C2 at tag 4. -/
theorem claim_C2_invalid_tag_fatal_witness :
    pathrs_duplicate kDemo 4 (some (.chandle ⟨some ⟨3⟩, none⟩)) = .fatal
    ∧ pathrs_into_fd kDemo 4 (some (.chandle ⟨some ⟨3⟩, none⟩)) = .fatal
    ∧ pathrs_from_fd kDemo 4 3 = .fatal :=
  claim_C2_invalid_tag_fatal kDemo 4 3 (.chandle ⟨some ⟨3⟩, none⟩) (by decide)

/-- Claim C9: `pathrs_duplicate` on a Root or Handle.  When duplication
of the underlying descriptor fails, the call returns NULL and the
failure is attached to the source object's stored error, nothing is
thrown.  When it succeeds, the returned object is an independent copy:
its descriptor is a fresh kernel-level duplicate referring to the same
inode, never an alias of the original's descriptor number (assuming a
well-formed kernel state). -/
theorem claim_C9_duplicate_err_and_copy (k : KState) (r : Root) (hdl : Handle)
    (le le' : Option Error) :
    (∀ e k₁, k.dup r.fd = (.error e, k₁) →
        pathrs_duplicate k PATHRS_ROOT (some (.croot ⟨some r, le⟩))
          = .ok (none, some (.croot ⟨some r, some e⟩), k₁))
    ∧ (∀ f k₁, k.dup r.fd = (.ok f, k₁) →
        pathrs_duplicate k PATHRS_ROOT (some (.croot ⟨some r, le⟩))
          = .ok (some (.croot ⟨some ⟨f, r.config⟩, none⟩),
                 some (.croot ⟨some r, none⟩), k₁)
        ∧ k₁.table.lookup f = k.table.lookup r.fd
        ∧ (k.WF → f ≠ r.fd))
    ∧ (∀ e k₁, k.dup hdl.fd = (.error e, k₁) →
        pathrs_duplicate k PATHRS_HANDLE (some (.chandle ⟨some hdl, le'⟩))
          = .ok (none, some (.chandle ⟨some hdl, some e⟩), k₁))
    ∧ (∀ f k₁, k.dup hdl.fd = (.ok f, k₁) →
        pathrs_duplicate k PATHRS_HANDLE (some (.chandle ⟨some hdl, le'⟩))
          = .ok (some (.chandle ⟨some ⟨f⟩, none⟩),
                 some (.chandle ⟨some hdl, none⟩), k₁)
        ∧ k₁.table.lookup f = k.table.lookup hdl.fd
        ∧ (k.WF → f ≠ hdl.fd)) := by
  have key : ∀ fd f k₁, k.dup fd = (.ok f, k₁) →
      k₁.table.lookup f = k.table.lookup fd ∧ (k.WF → f ≠ fd) := by
    intro fd f k₁ hd
    obtain ⟨hf, ino, hl, hk⟩ := dup_ok_spec k fd f k₁ hd
    subst hf; subst hk
    refine ⟨by rw [lookup_cons_self, hl], fun hwf hcontra => ?_⟩
    have hmem : (fd, ino) ∈ k.table := lookup_mem _ _ _ hl
    have := hwf _ hmem
    simp only at this
    omega
  refine ⟨?_, ?_, ?_, ?_⟩
  · intro e k₁ hd
    simp [pathrs_duplicate, PATHRS_NONE, PATHRS_ERROR, PATHRS_ROOT, hd]
  · intro f k₁ hd
    refine ⟨?_, key r.fd f k₁ hd⟩
    simp [pathrs_duplicate, PATHRS_NONE, PATHRS_ERROR, PATHRS_ROOT, hd]
  · intro e k₁ hd
    simp [pathrs_duplicate, PATHRS_NONE, PATHRS_ERROR, PATHRS_ROOT, PATHRS_HANDLE, hd]
  · intro f k₁ hd
    refine ⟨?_, key hdl.fd f k₁ hd⟩
    simp [pathrs_duplicate, PATHRS_NONE, PATHRS_ERROR, PATHRS_ROOT, PATHRS_HANDLE, hd]

/-- Witness for C9: a scheduled dup failure on `kDupFail` (NULL plus
stored error) and a successful duplication on `kDemo` (fresh descriptor
4 onto the same inode 7 as descriptor 3). -/
theorem claim_C9_duplicate_err_and_copy_witness :
    pathrs_duplicate kDupFail PATHRS_ROOT
        (some (.croot ⟨some ⟨3, .emulatedOnly⟩, none⟩))
      = .ok (none, some (.croot ⟨some ⟨3, .emulatedOnly⟩, some (.os 24)⟩), ⟨[(3, 7)], 4, []⟩)
    ∧ (pathrs_duplicate kDemo PATHRS_ROOT
          (some (.croot ⟨some ⟨3, .emulatedOnly⟩, none⟩))
        = .ok (some (.croot ⟨some ⟨4, .emulatedOnly⟩, none⟩),
               some (.croot ⟨some ⟨3, .emulatedOnly⟩, none⟩), ⟨[(4, 7), (3, 7)], 5, []⟩)
      ∧ (⟨[(4, 7), (3, 7)], 5, []⟩ : KState).table.lookup 4 = kDemo.table.lookup 3
      ∧ (kDemo.WF → 4 ≠ 3)) :=
  ⟨(claim_C9_duplicate_err_and_copy kDupFail ⟨3, .emulatedOnly⟩ ⟨3⟩ none none).1
      (.os 24) ⟨[(3, 7)], 4, []⟩ rfl,
   (claim_C9_duplicate_err_and_copy kDemo ⟨3, .emulatedOnly⟩ ⟨3⟩ none none).2.1
      4 ⟨[(4, 7), (3, 7)], 5, []⟩ rfl⟩

/-- Claim C4: when `pathrs_from_fd` returns (success and failure alike,
for any requested kind), the caller's descriptor entry in the kernel
table is unchanged — the call never takes ownership of the caller's
descriptor — and any object the call constructs holds a kernel-level
duplicate: a different descriptor number referring to the same inode the
caller's descriptor refers to. -/
theorem claim_C4_from_fd_keeps_caller_fd (k : KState) (t fd : Int)
    (ret : Option CObj) (k' : KState) (hwf : k.WF) (hfd : 0 ≤ fd)
    (hcall : pathrs_from_fd k t fd = .ok (ret, k')) :
    k'.table.lookup fd.toNat = k.table.lookup fd.toNat
    ∧ ∀ f, ret.bind CObj.innerFd = some f →
        f ≠ fd.toNat ∧ k'.table.lookup f = k.table.lookup fd.toNat := by
  have hnf : ¬fd < 0 := by omega
  unfold pathrs_from_fd at hcall
  rw [if_neg hnf] at hcall
  split at hcall
  case _ e k₁ hd =>
    have hk₁ : k₁ = { k with dupFailures := k.dupFailures.tail } :=
      dup_err_spec k fd.toNat e k₁ hd
    have htab : k₁.table = k.table := by rw [hk₁]
    unfold fromFdMkErr at hcall
    split at hcall
    · obtain ⟨hret, hk'⟩ := by simpa using hcall
      subst hret; subst hk'
      exact ⟨by rw [htab], by intro f hf; simp [CObj.innerFd] at hf⟩
    · split at hcall
      · obtain ⟨hret, hk'⟩ := by simpa using hcall
        subst hret; subst hk'
        exact ⟨by rw [htab], by intro f hf; simp [CObj.innerFd] at hf⟩
      · split at hcall
        · obtain ⟨hret, hk'⟩ := by simpa using hcall
          subst hret; subst hk'
          exact ⟨by rw [htab], by intro f hf; simp at hf⟩
        · exact COutcome.noConfusion hcall
  case _ n k₁ hd =>
    obtain ⟨hn, ino, hl, hk₁⟩ := dup_ok_spec k fd.toNat n k₁ hd
    have hmem : (fd.toNat, ino) ∈ k.table := lookup_mem _ _ _ hl
    have hlt : fd.toNat < k.next := by
      have := hwf _ hmem
      simpa using this
    have hne : fd.toNat ≠ k.next := by omega
    subst hn; subst hk₁
    split at hcall
    · obtain ⟨hret, hk'⟩ := by simpa using hcall
      subst hret; subst hk'
      refine ⟨by rw [lookup_cons_ne _ _ _ _ hne], ?_⟩
      intro f hf
      simp [CObj.innerFd] at hf
      subst hf
      exact ⟨by omega, by rw [lookup_cons_self, hl]⟩
    · split at hcall
      · obtain ⟨hret, hk'⟩ := by simpa using hcall
        subst hret; subst hk'
        refine ⟨by rw [lookup_cons_ne _ _ _ _ hne], ?_⟩
        intro f hf
        simp [CObj.innerFd] at hf
        subst hf
        exact ⟨by omega, by rw [lookup_cons_self, hl]⟩
      · unfold fromFdMkErr at hcall
        rw [if_neg ‹¬t = PATHRS_ROOT›, if_neg ‹¬t = PATHRS_HANDLE›] at hcall
        split at hcall
        · obtain ⟨hret, hk'⟩ := by simpa using hcall
          subst hret; subst hk'
          refine ⟨?_, by intro f hf; simp at hf⟩
          unfold KState.close
          simp only
          rw [filter_drop_self, lookup_filter_ne _ _ _ hne]
        · exact COutcome.noConfusion hcall

/-- Witness for C4: importing a Root from descriptor 3 of `kDemo`. -/
theorem claim_C4_from_fd_keeps_caller_fd_witness :
    (⟨[(4, 7), (3, 7)], 5, []⟩ : KState).table.lookup (Int.toNat 3)
      = kDemo.table.lookup (Int.toNat 3)
    ∧ ∀ f, (some (CObj.croot ⟨some ⟨4, .kernelNativePreferred⟩, none⟩)).bind
          CObj.innerFd = some f →
        f ≠ Int.toNat 3
        ∧ (⟨[(4, 7), (3, 7)], 5, []⟩ : KState).table.lookup f
            = kDemo.table.lookup (Int.toNat 3) :=
  claim_C4_from_fd_keeps_caller_fd kDemo PATHRS_ROOT 3
    (some (.croot ⟨some ⟨4, .kernelNativePreferred⟩, none⟩))
    ⟨[(4, 7), (3, 7)], 5, []⟩ (by decide) (by decide) rfl

/-- Claim C7: under a stable tree, exporting a Root with
`pathrs_into_fd` yields its raw descriptor (kernel table unchanged), and
re-importing that descriptor with `pathrs_from_fd` yields a fresh Root
whose descriptor refers to the same inode, so its resolutions behave
identically to the original's for every stable filesystem and every
path — in particular for any one concrete fixed path. -/
theorem claim_C7_descriptor_roundtrip (k : KState) (r : Root) (le : Option Error)
    (ino : Nat) (hnofail : k.dupFails = false)
    (hino : k.table.lookup r.fd = some ino) :
    pathrs_into_fd k PATHRS_ROOT (some (.croot ⟨some r, le⟩))
      = .ok ((r.fd : Int), some (.croot ⟨none, none⟩), k)
    ∧ ∃ (r' : Root) (k₂ : KState),
        pathrs_from_fd k PATHRS_ROOT (r.fd : Int)
          = .ok (some (.croot ⟨some r', none⟩), k₂)
        ∧ k₂.table.lookup r'.fd = some ino
        ∧ ∀ fs comps, rootResolveE k₂ r' fs comps = rootResolveE k r fs comps := by
  have hd : k.dup r.fd =
      (.ok k.next, ⟨(k.next, ino) :: k.table, k.next + 1, k.dupFailures.tail⟩) := by
    unfold KState.dup
    rw [if_neg (by simp [hnofail])]
    simp only
    rw [show ({ k with dupFailures := k.dupFailures.tail } : KState).table = k.table
         from rfl, hino]
  refine ⟨rfl, ⟨k.next, .kernelNativePreferred⟩,
    ⟨(k.next, ino) :: k.table, k.next + 1, k.dupFailures.tail⟩, ?_, ?_, ?_⟩
  · unfold pathrs_from_fd
    rw [if_neg (by omega : ¬(r.fd : Int) < 0), show ((r.fd : Int)).toNat = r.fd
        from Int.toNat_natCast r.fd, hd]
    rfl
  · exact lookup_cons_self _ _ _
  · intro fs comps
    unfold rootResolveE
    simp only
    rw [hino, lookup_cons_self]

/-- Witness for C7 over `kEtc`/`etcFs`, together with a concrete
resolution: the round-tripped Root resolves `etc/passwd` to inode 2,
exactly as the original does. -/
theorem claim_C7_descriptor_roundtrip_witness :
    (pathrs_into_fd kEtc PATHRS_ROOT
        (some (.croot ⟨some ⟨3, .kernelNativePreferred⟩, none⟩))
      = .ok ((3 : Int), some (.croot ⟨none, none⟩), kEtc)
    ∧ ∃ (r' : Root) (k₂ : KState),
        pathrs_from_fd kEtc PATHRS_ROOT 3
          = .ok (some (.croot ⟨some r', none⟩), k₂)
        ∧ k₂.table.lookup r'.fd = some 0
        ∧ ∀ fs comps, rootResolveE k₂ r' fs comps
            = rootResolveE kEtc ⟨3, .kernelNativePreferred⟩ fs comps)
    ∧ rootResolveE kEtc ⟨3, .kernelNativePreferred⟩ etcFs ["etc", "passwd"]
        = some (.ok 2) :=
  ⟨claim_C7_descriptor_roundtrip kEtc ⟨3, .kernelNativePreferred⟩ none 0 rfl rfl,
   by decide⟩

/-- The segment walker never reports the dispatcher-level
`persistentRace` error: its failures are structural lookup errors. -/
theorem walkSeg_ne_pr (fss : Nat → Fs) (root : Nat) :
    ∀ q cur stack t, walkSeg fss root q cur stack t ≠ .done (.error .persistentRace) := by
  intro q
  induction q with
  | nil => intro cur stack t h; simp [walkSeg] at h
  | cons c rest ih =>
    intro cur stack t
    rw [walkSeg.eq_def]
    simp only
    split
    · simp
    · split
      · exact ih cur stack t
      · split
        · split
          · exact ih root [] t
          · split
            · simp
            · exact ih _ _ _
        · split
          · simp
          · split
            · simp
            · exact ih _ _ _
            · split
              · simp
              · simp

/-- The component walk never reports `persistentRace` either: it can
only fail structurally or with `tooManyLinks`. -/
theorem walkAux_ne_pr (fss : Nat → Fs) (root : Nat) :
    ∀ b q cur stack t, walkAux fss root b q cur stack t ≠ .error .persistentRace := by
  intro b
  induction b with
  | zero =>
    intro q cur stack t
    rw [walkAux]
    split
    · next r heq =>
        intro hr
        rw [hr] at heq
        exact walkSeg_ne_pr fss root q cur stack t heq
    · simp
  | succ m ih =>
    intro q cur stack t
    rw [walkAux]
    split
    · next r heq =>
        intro hr
        rw [hr] at heq
        exact walkSeg_ne_pr fss root q cur stack t heq
    · split
      · exact ih _ _ _ _
      · exact ih _ _ _ _

/-- A single walk-plus-verification attempt never reports
`persistentRace`: that error is produced only by the retry loop. -/
theorem resolveOnce_ne_pr (fss : Nat → Fs) (root : Nat) (comps : List String) :
    resolveOnce fss root comps ≠ .error .persistentRace := by
  unfold resolveOnce
  split
  · next e heq =>
      intro hr
      injection hr with hr
      rw [hr] at heq
      exact walkAux_ne_pr fss root MAX_SYMLINKS comps root [] 0 heq
  · next ino stack t heq =>
      split
      · split <;> simp
      · simp
      · simp

/-- If a walk-plus-verification attempt succeeds, the verifier saw, in
the filesystem state at verification time, the handle's proc path equal
to the root's proc path extended by the walk's logical path: the handle
lies inside the root's subtree at that instant. -/
theorem resolveOnce_anchored (fss : Nat → Fs) (root : Nat) (comps : List String)
    (h : Nat) (hok : resolveOnce fss root comps = .ok h) :
    ∃ t rp rest, (fss t).procPath root = some rp
      ∧ (fss t).procPath h = some (rp ++ rest) := by
  unfold resolveOnce at hok
  split at hok
  · exact absurd hok (by simp)
  · next ino stack t heq =>
      split at hok
      · next rp hp hrp hhp =>
          split at hok
          · next hcond =>
              injection hok with hok
              subst hok
              exact ⟨t, rp, stack, hrp, by rw [hhp, hcond]⟩
          · exact absurd hok (by simp)
      · exact absurd hok (by simp)
      · exact absurd hok (by simp)

/-- One retry step: a detected race restarts the loop with one less
attempt available. -/
theorem retryAux_race_step (env : Nat → Nat → Fs) (root : Nat) (comps : List String)
    (m used : Nat) (h : resolveOnce (env used) root comps = .error .raceDetected) :
    resolveRetryAux env root comps (m + 1) used
      = resolveRetryAux env root comps m (used + 1) := by
  simp [resolveRetryAux, h]

/-- One retry step: any non-race outcome of an attempt is final. -/
theorem retryAux_stop_step (env : Nat → Nat → Fs) (root : Nat) (comps : List String)
    (m used : Nat) (hne : resolveOnce (env used) root comps ≠ .error .raceDetected) :
    resolveRetryAux env root comps (m + 1) used
      = (resolveOnce (env used) root comps, used + 1) := by
  rcases hro : resolveOnce (env used) root comps with e | v
  · cases e <;> simp_all [resolveRetryAux, hro]
  · simp [resolveRetryAux, hro]

/-- Behaviour of the bounded retry loop: it never surfaces the internal
`raceDetected` signal, uses at most its attempt budget, and reports
`persistentRace` exactly when every attempt within the budget raced. -/
theorem retryAux_spec (env : Nat → Nat → Fs) (root : Nat) (comps : List String) :
    ∀ n used,
      (resolveRetryAux env root comps n used).1 ≠ .error .raceDetected
      ∧ (resolveRetryAux env root comps n used).2 ≤ used + n
      ∧ ((resolveRetryAux env root comps n used).1 = .error .persistentRace ↔
          ∀ i < n, resolveOnce (env (used + i)) root comps = .error .raceDetected) := by
  intro n
  induction n with
  | zero =>
    intro used
    refine ⟨by simp [resolveRetryAux], by simp [resolveRetryAux], ?_⟩
    simp [resolveRetryAux]
  | succ m ih =>
    intro used
    by_cases hr : resolveOnce (env used) root comps = .error .raceDetected
    · rw [retryAux_race_step env root comps m used hr]
      obtain ⟨ih1, ih2, ih3⟩ := ih (used + 1)
      refine ⟨ih1, by omega, ?_⟩
      rw [ih3]
      constructor
      · intro hall i hi
        cases i with
        | zero => simpa using hr
        | succ j =>
          have hj := hall j (by omega)
          rwa [show used + 1 + j = used + (j + 1) from by omega] at hj
      · intro hall i hi
        have hj := hall (i + 1) (by omega)
        rwa [show used + (i + 1) = used + 1 + i from by omega] at hj
    · rw [retryAux_stop_step env root comps m used hr]
      refine ⟨hr, by show used + 1 ≤ used + (m + 1); omega, ?_⟩
      constructor
      · intro hpr
        exact absurd hpr (resolveOnce_ne_pr (env used) root comps)
      · intro hall
        have h0 := hall 0 (by omega)
        rw [Nat.add_zero] at h0
        exact absurd h0 hr

/-- Claim C6: for emulated resolution, the internal `raceDetected`
signal is consumed by restarting the walk and is never surfaced; the
loop performs at most the fixed number of retries — so resolution
terminates within the bound even against an adversary that forces a
race on every attempt — and it reports `persistentRace` if and only if
every attempt within the retry bound raced (the bound was exhausted). -/
theorem claim_C6_race_retry_policy (env : Nat → Nat → Fs) (root : Nat)
    (comps : List String) :
    (resolveEmulated env root comps).1 ≠ .error .raceDetected
    ∧ (resolveEmulated env root comps).2 ≤ MAX_RETRIES
    ∧ ((resolveEmulated env root comps).1 = .error .persistentRace ↔
        ∀ a < MAX_RETRIES, resolveOnce (env a) root comps = .error .raceDetected) := by
  obtain ⟨h1, h2, h3⟩ := retryAux_spec env root comps MAX_RETRIES 0
  refine ⟨h1, by simpa using h2, ?_⟩
  unfold resolveEmulated
  simpa [Nat.zero_add] using h3

/-- Witness for C6: under the adversary `raceFs` (which defeats the
proc-path readback on every attempt), every attempt races and the
emulated resolver indeed reports `persistentRace`. -/
theorem claim_C6_race_retry_policy_witness :
    ((resolveEmulated (fun _ _ => raceFs) 0 []).1 ≠ .error .raceDetected
    ∧ (resolveEmulated (fun _ _ => raceFs) 0 []).2 ≤ MAX_RETRIES
    ∧ ((resolveEmulated (fun _ _ => raceFs) 0 []).1 = .error .persistentRace ↔
        ∀ a < MAX_RETRIES, resolveOnce ((fun _ _ => raceFs) a) 0 []
          = .error .raceDetected))
    ∧ (resolveEmulated (fun _ _ => raceFs) 0 []).1 = .error .persistentRace :=
  ⟨claim_C6_race_retry_policy (fun _ _ => raceFs) 0 [], by decide⟩

/-- If some attempt of the retry loop succeeds, that attempt's verifier
anchored the resulting handle under the root. -/
theorem retryAux_anchored (env : Nat → Nat → Fs) (root : Nat) (comps : List String) :
    ∀ n used h, (resolveRetryAux env root comps n used).1 = .ok h →
      ∃ a t rp rest, (env a t).procPath root = some rp
        ∧ (env a t).procPath h = some (rp ++ rest) := by
  intro n
  induction n with
  | zero =>
    intro used h hok
    simp [resolveRetryAux] at hok
  | succ m ih =>
    intro used h hok
    by_cases hr : resolveOnce (env used) root comps = .error .raceDetected
    · rw [retryAux_race_step env root comps m used hr] at hok
      exact ih (used + 1) h hok
    · rw [retryAux_stop_step env root comps m used hr] at hok
      obtain ⟨t, rp, rest, h1, h2⟩ :=
        resolveOnce_anchored (env used) root comps h hok
      exact ⟨used, t, rp, rest, h1, h2⟩

/-- A successful native resolution is a successful walk-plus-check on
the frozen state. -/
theorem native_ok (fs : Fs) (root : Nat) (comps : List String) (h : Nat)
    (hok : nativeResolve fs root comps = .ok h) :
    resolveOnce (fun _ => fs) root comps = .ok h := by
  rcases hro : resolveOnce (fun _ => fs) root comps with e | v
  · cases e <;> simp_all [nativeResolve, hro]
  · simp [nativeResolve, hro] at hok
    rw [hok]

/-- Claim C1 (containment): for every path — including ones with `..`
or absolute-looking segments — every configuration, and every
time-varying filesystem environment (modelling concurrent replacement
of intermediate directories by symlinks during the walk), if resolution
returns a handle then at the verification instant the handle's proc
path extends the root's proc path: the handle's real target lies inside
the root's directory subtree. -/
theorem claim_C1_containment (sn : Bool) (cfg : Config) (env : Nat → Nat → Fs)
    (root : Nat) (comps : List String) (h : Nat)
    (hok : resolve sn cfg env root comps = .ok h) :
    ∃ a t rp rest, (env a t).procPath root = some rp
      ∧ (env a t).procPath h = some (rp ++ rest) := by
  unfold resolve at hok
  split at hok
  · exact retryAux_anchored env root comps MAX_RETRIES 0 h hok
  · obtain ⟨t, rp, rest, h1, h2⟩ :=
      resolveOnce_anchored (fun _ => env 0 0) root comps h
        (native_ok (env 0 0) root comps h hok)
    exact ⟨0, 0, rp, rest, h1, h2⟩

/-- Witness for C1: resolving `etc/passwd` under `etcFs` succeeds with
inode 2, whose proc path `r/etc/passwd` extends the root's `r`. -/
theorem claim_C1_containment_witness :
    ∃ (a t : Nat) (rp rest : List String), etcFs.procPath 0 = some rp
      ∧ etcFs.procPath 2 = some (rp ++ rest) :=
  claim_C1_containment true .kernelNativePreferred (fun _ _ => etcFs) 0
    ["etc", "passwd"] 2 (by decide)

/-- A chain of at least `n + 1` nested symlinks contains one of at
least `n`. -/
theorem chain_step_down (fs : Fs) (root : Nat) :
    ∀ n c, SymlinkChain fs root c (n + 1) → SymlinkChain fs root c n := by
  intro n
  induction n with
  | zero => intro c _; trivial
  | succ m ih =>
    intro c h
    obtain ⟨hg, i, c', h1, h2, h3, h4⟩ := h
    cases m with
    | zero => exact ⟨hg, i, h1, h2⟩
    | succ m' => exact ⟨hg, i, c', h1, h2, h3, ih c' h4⟩

/-- Chains are downward monotone in their length. -/
theorem chain_mono (fs : Fs) (root : Nat) (c : String) :
    ∀ n m, m ≤ n → SymlinkChain fs root c n → SymlinkChain fs root c m := by
  intro n
  induction n with
  | zero =>
    intro m hle h
    have hm : m = 0 := by omega
    subst hm
    trivial
  | succ k ih =>
    intro m hle h
    by_cases hm : m = k + 1
    · subst hm; exact h
    · exact ih m (by omega) (chain_step_down fs root k c h)

/-- Walking one name that begins a symlink chain longer than the
remaining budget exhausts the budget and fails with `TooManyLinks`. -/
theorem walk_chain_tooMany (fs : Fs) (root : Nat) :
    ∀ b c stack t, SymlinkChain fs root c (b + 1) →
      walkAux (fun _ => fs) root b [c] root stack t = .error .tooManyLinks := by
  intro b
  induction b with
  | zero =>
    intro c stack t h
    obtain ⟨⟨hne, hnd, hndd⟩, i, hch, hk⟩ := h
    have hseg : walkSeg (fun _ => fs) root [c] root stack t
        = .link (fs.readlink i).1 (fs.readlink i).2 [] root stack (t + 1) := by
      rw [walkSeg.eq_def]
      simp only [if_neg hne, if_neg hnd, if_neg hndd, hch, hk]
    rw [walkAux, hseg]
  | succ b ih =>
    intro c stack t h
    obtain ⟨⟨hne, hnd, hndd⟩, i, c', hch, hk, hrl, hrest⟩ := h
    have hseg : walkSeg (fun _ => fs) root [c] root stack t
        = .link false [c'] [] root stack (t + 1) := by
      rw [walkSeg.eq_def]
      simp only [if_neg hne, if_neg hnd, if_neg hndd, hch, hk, hrl]
    rw [walkAux, hseg]
    show walkAux (fun _ => fs) root b ([c'] ++ []) root stack (t + 1)
        = .error .tooManyLinks
    exact ih c' stack (t + 1) hrest

/-- A walk-plus-verification attempt on a too-long chain fails with
`TooManyLinks`. -/
theorem resolveOnce_chain (fs : Fs) (root : Nat) (c : String)
    (h : SymlinkChain fs root c (MAX_SYMLINKS + 1)) :
    resolveOnce (fun _ => fs) root [c] = .error .tooManyLinks := by
  unfold resolveOnce
  rw [walk_chain_tooMany fs root MAX_SYMLINKS c [] 0 h]

/-- Claim C5: under any configuration and either backend, resolving a
name that begins a chain of `N` nested symlinks with `N` above the
configured bound always fails with `TooManyLinks` — resolution is a
total function, so it neither loops nor overflows, and it never
returns a handle. -/
theorem claim_C5_symlink_loop_bound (fs : Fs) (root : Nat) (c : String) (N : Nat)
    (sn : Bool) (cfg : Config) (hN : MAX_SYMLINKS < N)
    (hchain : SymlinkChain fs root c N) :
    resolve sn cfg (fun _ _ => fs) root [c] = .error .tooManyLinks := by
  have hc : SymlinkChain fs root c (MAX_SYMLINKS + 1) :=
    chain_mono fs root c N (MAX_SYMLINKS + 1) (by omega) hchain
  have honce : resolveOnce (fun _ => fs) root [c] = .error .tooManyLinks :=
    resolveOnce_chain fs root c hc
  unfold resolve
  split
  · unfold resolveEmulated
    rw [show MAX_RETRIES = 15 + 1 from rfl]
    rw [retryAux_stop_step (fun _ _ => fs) root [c] 15 0 (by simp [honce])]
    simp [honce]
  · rcases hro : resolveOnce (fun _ => fs) root [c] with e | v
    · rw [honce] at hro
      injection hro with hro
      subst hro
      simp [nativeResolve, honce]
    · rw [honce] at hro
      cases hro

/-- Witness helper: in `loopFs` the name `x` is a symlink to itself, so
it begins a chain of every length. -/
theorem loopFs_chain : ∀ n, SymlinkChain loopFs 0 "x" n := by
  intro n
  induction n with
  | zero => trivial
  | succ m ih =>
    cases m with
    | zero => exact ⟨by decide, 1, by decide, by decide⟩
    | succ m' => exact ⟨by decide, 1, "x", by decide, by decide, by decide, ih⟩

/-- Witness for C5: resolving the self-referential symlink `x` of
`loopFs` (a chain longer than the bound) fails with `TooManyLinks`. -/
theorem claim_C5_symlink_loop_bound_witness :
    resolve true .kernelNativePreferred (fun _ _ => loopFs) 0 ["x"]
      = .error .tooManyLinks :=
  claim_C5_symlink_loop_bound loopFs 0 "x" (MAX_SYMLINKS + 1) true
    .kernelNativePreferred (by decide) (loopFs_chain (MAX_SYMLINKS + 1))

end Pathrs
